import Mathlib

/-!
Shallow embedding of the core of `generate_tw_focus.py`: version-string
parsing, region-label normalization, branch aggregation, and the MAD-based
staleness classifier, together with theorems settling the frozen claims.

Python string primitives (`replace`, `split`, `strip`, substring test) are
modelled on `List Char`; Python dates are modelled as proleptic-Gregorian day
numbers, parsed from the zero-padded `YYYY-MM-DD` strings the corpus uses;
Python float arithmetic in the z-score is modelled exactly over `ℚ`.
-/

namespace HyperData

/-- Python `pat in s` substring test, on character lists. -/
def containsSub (pat : List Char) : List Char → Bool
  | [] => pat.isEmpty
  | c :: rest => pat.isPrefixOf (c :: rest) || containsSub pat rest

/-- One step bound for Python `str.replace`: scans `s` left to right, replacing
each non-overlapping occurrence of `pat` by `rep`.  `fuel` bounds the scan;
`s.length` is always enough. -/
def replaceFuel (pat rep : List Char) : Nat → List Char → List Char
  | 0, s => s
  | _ + 1, [] => []
  | fuel + 1, c :: rest =>
    if pat.isPrefixOf (c :: rest) then
      rep ++ replaceFuel pat rep fuel ((c :: rest).drop pat.length)
    else
      c :: replaceFuel pat rep fuel rest

/-- Python `s.replace(pat, rep)` (no-op for the empty pattern, which the
source never uses). -/
def pyReplace (s pat rep : String) : String :=
  if pat.data.isEmpty then s
  else ⟨replaceFuel pat.data rep.data s.data.length s.data⟩

/-- Python-style stripping of one given character from both ends of a list,
as in the dot-stripping step of the version parser. -/
def stripChar (c : Char) (l : List Char) : List Char :=
  ((l.dropWhile (· = c)).reverse.dropWhile (· = c)).reverse

/-- Python `s.strip()` (whitespace from both ends). -/
def pyTrim (s : String) : String :=
  ⟨((s.data.dropWhile Char.isWhitespace).reverse.dropWhile Char.isWhitespace).reverse⟩

/-- Python `s.split(sep)` for a single-character separator: `""` splits to
`[""]`, separators at the ends produce empty segments. -/
def splitOnChar (sep : Char) : List Char → List (List Char)
  | [] => [[]]
  | c :: rest =>
    match splitOnChar sep rest with
    | [] => [[c]]
    | h :: t => if c = sep then [] :: h :: t else (c :: h) :: t

/-- Decimal value of a digit string, Python `int(x)` for `x.isdigit()`. -/
def digitsToNat (l : List Char) : Nat :=
  l.foldl (fun n c => 10 * n + (c.toNat - '0'.toNat)) 0

/-- Python `x.isdigit()` restricted to ASCII digits (all version strings in
the corpus are ASCII). -/
def pyIsDigit (l : List Char) : Bool :=
  !l.isEmpty && l.all Char.isDigit

/-- Version parser `version_to_tuple` from the source: drop a trailing 7-character build tag
when the string is longer than 7 characters, drop a leading `"OS"`, strip
dots from both ends, split on dots, and keep the all-digit segments as
numbers.  On a Lean `String` no exception can occur, so the `except` branch
returning `(0,)` is unreachable here. -/
def version_to_tuple (v_str : String) : List Nat :=
  let cs := v_str.data
  let clean1 := if cs.length > 7 then cs.take (cs.length - 7) else cs
  let clean2 := if ['O', 'S'].isPrefixOf clean1 then clean1.drop 2 else clean1
  let clean3 := stripChar '.' clean2
  (splitOnChar '.' clean3).filterMap fun x =>
    if pyIsDigit x then some (digitsToNat x) else none

/-- Python tuple `<` on the integer version keys: lexicographic, a proper
prefix is smaller than its extensions. -/
def tupleLt : List Nat → List Nat → Bool
  | [], [] => false
  | [], _ :: _ => true
  | _ :: _, [] => false
  | a :: as, b :: bs => if a < b then true else if b < a then false else tupleLt as bs

/-- Lexicon `REGION_MAPPING` from the source, as an ordered association list
(Python dict literals iterate in insertion order). -/
def REGION_MAPPING : List (String × String) :=
  [("欧洲", "歐洲"), ("俄罗斯", "俄羅斯"), ("印度尼西亚", "印尼"),
   ("土耳其", "土耳其"), ("韩国", "韓國"), ("中国大陆", "中國"),
   ("中国", "中國"), ("演示机", "演示機"), ("运营商", "電信商"),
   ("定制", "客製"), ("政企标准", "政企標準"), ("政企", "政企")]

/-- First-match lookup in an ordered association list (Python `in` / `[]` on
the dict). -/
def lookupList : List (String × String) → String → Option String
  | [], _ => none
  | p :: rest, k => if p.1 = k then some p.2 else lookupList rest k

/-- The branch label with the fixed `"小米澎湃 OS "` prefix phrase removed
(first step of `get_region_label`). -/
def stripped_name (branch_name_zh : String) : String :=
  pyReplace branch_name_zh "小米澎湃 OS " ""

/-- The core token of `get_region_label`: the stripped name with the generic
suffix words `"正式版"` and `"版"` removed and whitespace trimmed. -/
def core_token (branch_name_zh : String) : String :=
  pyTrim (pyReplace (pyReplace (stripped_name branch_name_zh) "正式版" "") "版" "")

/-- Normalizer `get_region_label` from the source: alias table, exact lexicon hit, EEA
special cases, then independent substring substitution of every lexicon key. -/
def get_region_label (branch_name_zh : String) : String :=
  let name := stripped_name branch_name_zh
  if name = "正式版" then "中國"
  else if name = "开发版" then "開發版"
  else if name = "Beta" then "Beta"
  else
    let core_name := core_token branch_name_zh
    match lookupList REGION_MAPPING core_name with
    | some v => v
    | none =>
      if core_name = "EEA" then "歐洲 EEA"
      else if core_name = "欧洲EEA" then "歐洲 EEA"
      else REGION_MAPPING.foldl (fun acc p => pyReplace acc p.1 p.2) core_name

/-- Label fallback done by the caller (collection loop): an empty normalizer result
is replaced by the original raw label. -/
def branchLabel (branch_name_zh : String) : String :=
  let bl := get_region_label branch_name_zh
  if bl = "" then branch_name_zh else bl

/-- Gregorian leap-year test. -/
def isLeap (y : Int) : Bool :=
  (y % 4 = 0 && y % 100 ≠ 0) || y % 400 = 0

/-- Length of a month, used by `strptime` to validate the day of month. -/
def daysInMonth (y m : Int) : Int :=
  if m = 2 then (if isLeap y then 29 else 28)
  else if m = 4 ∨ m = 6 ∨ m = 9 ∨ m = 11 then 30
  else 31

/-- Day number of a civil date (days since 1970-01-01, proleptic Gregorian);
what subtracting two Python `datetime`s reports in `.days`.  Only evaluated
on four-digit years, where every intermediate quantity is non-negative. -/
def daysFromCivil (y m d : Int) : Int :=
  let y2 := if m ≤ 2 then y - 1 else y
  let era := y2 / 400
  let yoe := y2 - era * 400
  let mp := if m > 2 then m - 3 else m + 9
  let doy := (153 * mp + 2) / 5 + d - 1
  let doe := yoe * 365 + yoe / 4 - yoe / 100 + doy
  era * 146097 + doe - 719468

/-- Date parsing as done by strptime with the year-month-day format on the
zero-padded date strings of the corpus; `none` models the exception that
`parse_history_dates` catches. -/
def parseDate (s : String) : Option Int :=
  match splitOnChar '-' s.data with
  | [ys, ms, ds] =>
    if pyIsDigit ys && pyIsDigit ms && pyIsDigit ds
        && ys.length = 4 && ms.length = 2 && ds.length = 2 then
      let y : Int := digitsToNat ys
      let m : Int := digitsToNat ms
      let d : Int := digitsToNat ds
      if 1 ≤ m ∧ m ≤ 12 ∧ 1 ≤ d ∧ d ≤ daysInMonth y m then
        some (daysFromCivil y m d)
      else none
    else none
  | _ => none

/-- One build row as consumed by the staleness functions: the fields the
collection loop stores for each ROM. -/
structure RomEntry where
  os : String
  android : String
  release : String
deriving DecidableEq, Repr

/-- Function `parse_history_dates` from the source: parse every `release`
field, silently dropping the
unparseable ones. -/
def parse_history_dates (history_list : List RomEntry) : List Int :=
  history_list.filterMap fun item => parseDate item.release

/-- Consecutive differences `(dates[i] - dates[i+1]).days`, keeping only the
non-negative ones. -/
def intervalsOf : List Int → List Int
  | a :: b :: rest =>
    (if a - b ≥ 0 then [a - b] else []) ++ intervalsOf (b :: rest)
  | _ => []

/-- Stable insertion into a `≤`-sorted list of rationals. -/
def insertSorted (x : ℚ) : List ℚ → List ℚ
  | [] => [x]
  | y :: ys => if x ≤ y then x :: y :: ys else y :: insertSorted x ys

/-- Ascending sort of rationals. -/
def sortQ (l : List ℚ) : List ℚ :=
  l.foldr insertSorted []

/-- Median as computed by the statistics module: middle element for odd
length, mean of the two
middle elements for even length (0 on the empty list, which the source
guards against). -/
def median (l : List ℚ) : ℚ :=
  let s := sortQ l
  let n := s.length
  if n % 2 = 1 then s.getD (n / 2) 0
  else (s.getD (n / 2 - 1) 0 + s.getD (n / 2) 0) / 2

/-- Classifier `is_abandoned_mad` from the source: the modified z-score of
the current gap against the historical cadence of the branch, thresholded
at 4.  Python float
division is modelled exactly over `ℚ`. -/
def is_abandoned_mad (history_list : List RomEntry) (days_since_last : Int) : Bool :=
  if history_list.length < 2 then false
  else
    let dates := parse_history_dates history_list
    if dates.length < 2 then false
    else
      let intervals := intervalsOf dates
      if intervals = [] then false
      else
        let median_val := median (intervals.map fun i => (i : ℚ))
        let mad := median (intervals.map fun x => |(x : ℚ) - median_val|)
        let mad_adj := max mad 1
        let score := ((days_since_last : ℚ) - median_val) / (14826 / 10000 * mad_adj)
        score > 4

/-- Function `get_max_interval` from the source: largest historical gap, 0 when there
is no usable gap. -/
def get_max_interval (history_list : List RomEntry) : Int :=
  if history_list.length < 2 then 0
  else
    let dates := parse_history_dates history_list
    if dates.length < 2 then 0
    else
      match intervalsOf dates with
      | [] => 0
      | i :: is => is.foldl max i

/-- The staleness flag the device-card loop actually computes:
`is_abandoned_mad(...) or (max_interval > 0 and days_ago > 2 * max_interval)`. -/
def is_abandoned_card (history_list : List RomEntry) (days_ago : Int) : Bool :=
  is_abandoned_mad history_list days_ago
    || (get_max_interval history_list > 0 && days_ago > 2 * get_max_interval history_list)

/-- The combination the spec describes instead: the MAD result OR-ed with the
absolute threshold `days_since_last > 100`.  Kept for comparison with
`is_abandoned_card`. -/
def is_abandoned_specOr100 (history_list : List RomEntry) (days_ago : Int) : Bool :=
  is_abandoned_mad history_list days_ago || days_ago > 100

/-- The two fixed branch names the collection loop matches exactly. -/
def TARGET_TW : String := "小米澎湃 OS 中国台湾省正式版"

/-- The reference/global branch name. -/
def TARGET_GLOBAL : String := "小米澎湃 OS 国际正式版"

/-- One raw ROM entry of the `roms` mapping of a branch: every field optional,
defaults supplied by the collection loop. -/
structure RawRom where
  os : Option String
  android : Option String
  release : Option String
deriving DecidableEq, Repr

/-- One raw branch entry: the nested zh name defaulting to the empty string,
the optional `brand` field, and the ordered `roms` mapping (Python dicts
iterate in insertion order). -/
structure RawBranch where
  name_zh : String
  brand : Option String
  roms : List (String × RawRom)
deriving DecidableEq, Repr

/-- One raw device record as loaded from a JSON file. -/
structure RawRecord where
  name_zh : Option String
  device : Option String
  branches : List RawBranch
deriving DecidableEq, Repr

/-- A populated branch timeline (`info_obj` in the source); `label` is `""`
for the target and global slots and the normalized name for `others`. -/
structure BranchInfo where
  latest : RomEntry
  history : List RomEntry
  label : String
deriving DecidableEq, Repr

/-- One entry of `devices_map`. -/
structure DeviceInfo where
  name : String
  code : String
  brand : String
  tw : Option BranchInfo
  glb : Option BranchInfo
  others : List BranchInfo
deriving DecidableEq, Repr

/-- ROM-dict entry converted to a row with the defaults of the source: `os` falls back to the
dict key, `android` to `""`, `release` to the epoch sentinel. -/
def toRomEntry (kv : String × RawRom) : RomEntry :=
  { os := kv.2.os.getD kv.1
    android := kv.2.android.getD ""
    release := kv.2.release.getD "1970-01-01" }

/-- Stable descending insertion by a string key: an element moves ahead only
of strictly smaller keys, so equal keys keep their original order, matching
the stable reverse sort of Python. -/
def insertKeyDesc {α : Type} (key : α → String) (x : α) : List α → List α
  | [] => [x]
  | y :: ys => if key y < key x then x :: y :: ys else y :: insertKeyDesc key x ys

/-- Stable descending sort by a string key. -/
def sortKeyDesc {α : Type} (key : α → String) (l : List α) : List α :=
  l.foldl (fun acc x => insertKeyDesc key x acc) []

/-- Building `info_obj` for one branch: convert and sort the ROM list
descending by release date; an empty `roms` mapping (`if not roms: continue`)
yields nothing. -/
def buildInfo (branch : RawBranch) : Option BranchInfo :=
  if branch.roms.isEmpty then none
  else
    match sortKeyDesc (fun r => r.release) (branch.roms.map toRomEntry) with
    | [] => none
    | h :: t => some { latest := h, history := h :: t, label := "" }

/-- Processing one branch entry against the current `devices_map` entry:
classification (with the target-branch brand overwrite happening before the
empty-`roms` check, as in the source), then timeline assignment. -/
def process_branch (dev : DeviceInfo) (branch : RawBranch) : DeviceInfo :=
  if branch.name_zh = TARGET_TW then
    let brand := branch.brand.getD "Xiaomi"
    let dev := if brand ≠ "" then { dev with brand := brand } else dev
    match buildInfo branch with
    | none => dev
    | some info => { dev with tw := some info }
  else if branch.name_zh = TARGET_GLOBAL then
    match buildInfo branch with
    | none => dev
    | some info => { dev with glb := some info }
  else
    match buildInfo branch with
    | none => dev
    | some info =>
      { dev with others := dev.others ++ [{ info with label := branchLabel branch.name_zh }] }

/-- The fresh `devices_map` entry for a device code. -/
def init_device (name code : String) : DeviceInfo :=
  { name := name, code := code, brand := "Other", tw := none, glb := none, others := [] }

/-- Lookup in the insertion-ordered corpus map. -/
def mapLookup : List (String × DeviceInfo) → String → Option DeviceInfo
  | [], _ => none
  | p :: rest, k => if p.1 = k then some p.2 else mapLookup rest k

/-- In-place update of the entry of one key, keys and order unchanged. -/
def mapUpdate (f : DeviceInfo → DeviceInfo) :
    List (String × DeviceInfo) → String → List (String × DeviceInfo)
  | [], _ => []
  | p :: rest, k =>
    if p.1 = k then (p.1, f p.2) :: rest else p :: mapUpdate f rest k

/-- Processing one device file: default the name and code, create the map
entry if absent, then fold every branch into it. -/
def process_record (m : List (String × DeviceInfo)) (data : RawRecord) :
    List (String × DeviceInfo) :=
  let device_name := data.name_zh.getD "Unknown Device"
  let device_code := data.device.getD ""
  let m :=
    if (mapLookup m device_code).isNone then
      m ++ [(device_code, init_device device_name device_code)]
    else m
  data.branches.foldl (fun m branch => mapUpdate (fun d => process_branch d branch) m device_code) m

/-- The whole collection phase over the record sequence. -/
def collect (records : List RawRecord) : List (String × DeviceInfo) :=
  records.foldl process_record []

/-- The filtering-and-sorting phase: keep exactly the devices whose `tw` slot
is populated, sort the `others` of each survivor and then the whole list descending
by the latest release date (the sort key reads `tw` through `Option`, which
the filter guarantees is populated). -/
def final_list_of (m : List (String × DeviceInfo)) : List DeviceInfo :=
  let kept := (m.filter fun p => p.2.tw.isSome).map fun p =>
    { p.2 with others := sortKeyDesc (fun o => o.latest.release) p.2.others }
  sortKeyDesc (fun d => ((d.tw.map fun i => i.latest.release).getD "")) kept

/-- Sample history with inter-release gaps of 10 and 100 days. -/
def histUneven : List RomEntry :=
  [{ os := "OS2.0.3.0", android := "15", release := "2024-04-20" },
   { os := "OS2.0.2.0", android := "15", release := "2024-04-10" },
   { os := "OS2.0.1.0", android := "14", release := "2024-01-01" }]

/-- Sample history with a steady 30-ish-day cadence. -/
def histSteady : List RomEntry :=
  [{ os := "OS1.0.4.0", android := "14", release := "2024-03-31" },
   { os := "OS1.0.3.0", android := "14", release := "2024-03-01" },
   { os := "OS1.0.2.0", android := "14", release := "2024-01-31" },
   { os := "OS1.0.1.0", android := "14", release := "2024-01-01" }]

/-- Sample record lacking a device code but carrying a populated target
branch. -/
def recNoCode : RawRecord :=
  { name_zh := some "Phone X", device := none,
    branches := [{ name_zh := TARGET_TW, brand := none,
                   roms := [("K1", { os := some "OS1.0.1.0", android := some "14",
                                     release := some "2024-01-01" })] }] }

/-- Sample record with a populated global branch but no target branch. -/
def recNoTw : RawRecord :=
  { name_zh := some "Phone Y", device := some "codeY",
    branches := [{ name_zh := TARGET_GLOBAL, brand := none,
                   roms := [("K1", { os := some "OS1.0.1.0", android := some "14",
                                     release := some "2024-01-01" })] }] }

/-- A fresh device entry. -/
def devFresh : DeviceInfo := init_device "Phone X" "codeX"

/-- A target-named branch with an empty roms mapping and no brand field. -/
def branchTwEmpty : RawBranch := { name_zh := TARGET_TW, brand := none, roms := [] }

/-- A non-target branch with an empty roms mapping. -/
def branchOtherEmpty : RawBranch :=
  { name_zh := "小米澎湃 OS 韩国版", brand := some "Z", roms := [] }

/-- Replacement of a pattern that does not occur leaves the list unchanged. -/
theorem replaceFuel_of_not_contains (pat rep : List Char) :
    ∀ (fuel : Nat) (s : List Char), containsSub pat s = false →
      replaceFuel pat rep fuel s = s
  | 0, _, _ => rfl
  | _ + 1, [], _ => rfl
  | fuel + 1, c :: rest, h => by
    simp only [containsSub, Bool.or_eq_false_iff] at h
    simp only [replaceFuel, h.1, Bool.false_eq_true, if_false]
    rw [replaceFuel_of_not_contains pat rep fuel rest h.2]

/-- Python replace with a pattern that does not occur is the identity. -/
theorem pyReplace_of_not_contains (s pat rep : String)
    (h : containsSub pat.data s.data = false) : pyReplace s pat rep = s := by
  unfold pyReplace
  split
  · rfl
  · rw [replaceFuel_of_not_contains pat.data rep.data s.data.length s.data h]

/-- Folding substring substitutions over keys none of which occur is the
identity; this is the fallback path of the normalizer on unknown labels. -/
theorem foldl_pyReplace_id :
    ∀ (l : List (String × String)) (s : String),
      (∀ p ∈ l, containsSub p.1.data s.data = false) →
      l.foldl (fun acc p => pyReplace acc p.1 p.2) s = s
  | [], _, _ => rfl
  | p :: rest, s, h => by
    simp only [List.foldl_cons]
    rw [pyReplace_of_not_contains s p.1 p.2 (h p (by simp))]
    exact foldl_pyReplace_id rest s fun q hq => h q (by simp [hq])

/-- Head-to-head characterization of the tuple order. -/
theorem tupleLt_cons_iff (x y : Nat) (xs ys : List Nat) :
    tupleLt (x :: xs) (y :: ys) = true ↔ x < y ∨ (x = y ∧ tupleLt xs ys = true) := by
  simp only [tupleLt]
  rcases Nat.lt_trichotomy x y with h | h | h
  · simp [h]
  · subst h
    simp [Nat.lt_irrefl]
  · have h1 : ¬ x < y := Nat.lt_asymm h
    simp [h1, h, Nat.ne_of_gt h]

/-- The tuple order is irreflexive. -/
theorem tupleLt_irrefl : ∀ a : List Nat, tupleLt a a = false
  | [] => rfl
  | x :: xs => by
    simp only [tupleLt]
    rw [if_neg (Nat.lt_irrefl x), if_neg (Nat.lt_irrefl x)]
    exact tupleLt_irrefl xs

/-- The tuple order is transitive. -/
theorem tupleLt_trans : ∀ a b c : List Nat,
    tupleLt a b = true → tupleLt b c = true → tupleLt a c = true
  | [], [], _, hab, _ => by simp [tupleLt] at hab
  | [], _ :: _, [], _, hbc => by simp [tupleLt] at hbc
  | [], _ :: _, _ :: _, _, _ => rfl
  | _ :: _, [], _, hab, _ => by simp [tupleLt] at hab
  | _ :: _, _ :: _, [], _, hbc => by simp [tupleLt] at hbc
  | x :: xs, y :: ys, z :: zs, hab, hbc => by
    rw [tupleLt_cons_iff] at hab hbc ⊢
    rcases hab with h | ⟨rfl, h⟩
    · rcases hbc with h2 | ⟨rfl, h2⟩
      · exact Or.inl (Nat.lt_trans h h2)
      · exact Or.inl h
    · rcases hbc with h2 | ⟨rfl, h2⟩
      · exact Or.inl h2
      · exact Or.inr ⟨rfl, tupleLt_trans xs ys zs h h2⟩

/-- The tuple order is asymmetric. -/
theorem tupleLt_asymm {a b : List Nat} (h : tupleLt a b = true) :
    tupleLt b a = false := by
  cases hba : tupleLt b a
  · rfl
  · have := tupleLt_trans a b a h hba
    rw [tupleLt_irrefl] at this
    simp at this

/-- Two tuples neither of which is below the other are equal. -/
theorem tupleLt_connex : ∀ a b : List Nat,
    tupleLt a b = false → tupleLt b a = false → a = b
  | [], [], _, _ => rfl
  | [], _ :: _, hab, _ => by simp [tupleLt] at hab
  | _ :: _, [], _, hba => by simp [tupleLt] at hba
  | x :: xs, y :: ys, hab, hba => by
    have h1 : ¬ (x < y ∨ (x = y ∧ tupleLt xs ys = true)) := by
      rw [← tupleLt_cons_iff]
      simp [hab]
    have h2 : ¬ (y < x ∨ (y = x ∧ tupleLt ys xs = true)) := by
      rw [← tupleLt_cons_iff]
      simp [hba]
    push_neg at h1 h2
    rcases h1 with ⟨h1a, h1b⟩
    rcases h2 with ⟨h2a, h2b⟩
    have hxy : x = y := by omega
    subst hxy
    have e1 : tupleLt xs ys = false := by
      cases e : tupleLt xs ys
      · rfl
      · exact absurd e (h1b rfl)
    have e2 : tupleLt ys xs = false := by
      cases e : tupleLt ys xs
      · rfl
      · exact absurd e (h2b rfl)
    rw [tupleLt_connex xs ys e1 e2]

/-- Membership through stable descending insertion. -/
theorem mem_insertKeyDesc {α : Type} (key : α → String) (x a : α) :
    ∀ l : List α, (a ∈ insertKeyDesc key x l ↔ a = x ∨ a ∈ l)
  | [] => by simp [insertKeyDesc]
  | y :: ys => by
    simp only [insertKeyDesc]
    split
    · simp [List.mem_cons]
    · rw [List.mem_cons, mem_insertKeyDesc key x a ys, List.mem_cons]
      tauto

/-- Membership through the stable descending sort. -/
theorem mem_sortKeyDesc {α : Type} (key : α → String) (a : α) (l : List α) :
    a ∈ sortKeyDesc key l ↔ a ∈ l := by
  have main : ∀ (l acc : List α),
      (a ∈ l.foldl (fun acc x => insertKeyDesc key x acc) acc ↔ a ∈ acc ∨ a ∈ l) := by
    intro l
    induction l with
    | nil => intro acc; simp
    | cons x xs ih =>
      intro acc
      simp only [List.foldl_cons]
      rw [ih (insertKeyDesc key x acc), mem_insertKeyDesc, List.mem_cons]
      tauto
  rw [sortKeyDesc, main]
  simp

/-- Updating one entry of the corpus map never changes which keys resolve. -/
theorem mapLookup_mapUpdate_isSome (f : DeviceInfo → DeviceInfo) :
    ∀ (m : List (String × DeviceInfo)) (k k' : String),
      (mapLookup (mapUpdate f m k) k').isSome = (mapLookup m k').isSome
  | [], _, _ => rfl
  | p :: rest, k, k' => by
    simp only [mapUpdate]
    split
    · simp only [mapLookup]
      split
      · rfl
      · rfl
    · simp only [mapLookup]
      split
      · rfl
      · exact mapLookup_mapUpdate_isSome f rest k k'

/-- Appending a fresh entry makes its key resolve. -/
theorem mapLookup_append_isSome :
    ∀ (m : List (String × DeviceInfo)) (k : String) (v : DeviceInfo),
      (mapLookup (m ++ [(k, v)]) k).isSome = true
  | [], k, _ => by simp [mapLookup]
  | p :: rest, k, v => by
    simp only [List.cons_append, mapLookup]
    split
    · rfl
    · exact mapLookup_append_isSome rest k v

/-- Folding branch updates over the map keeps every resolvable key
resolvable. -/
theorem foldl_mapUpdate_isSome (k k' : String) :
    ∀ (bs : List RawBranch) (m : List (String × DeviceInfo)),
      (mapLookup m k').isSome = true →
      (mapLookup
        (bs.foldl (fun m b => mapUpdate (fun d => process_branch d b) m k) m) k').isSome = true
  | [], _, h => h
  | b :: bs, m, h => by
    simp only [List.foldl_cons]
    exact foldl_mapUpdate_isSome k k' bs _
      (by rw [mapLookup_mapUpdate_isSome]; exact h)

/-- Pointwise properties of the stored devices survive an in-place update
whose function preserves them. -/
theorem mapUpdate_forall (P : DeviceInfo → Prop) (f : DeviceInfo → DeviceInfo) :
    ∀ (m : List (String × DeviceInfo)) (k : String),
      (∀ q ∈ m, P q.2) → (∀ v, P v → P (f v)) →
      ∀ q ∈ mapUpdate f m k, P q.2
  | [], k, _, _, q, hq => by simp [mapUpdate] at hq
  | p :: rest, k, hm, hf, q, hq => by
    simp only [mapUpdate] at hq
    split at hq
    · rcases List.mem_cons.mp hq with h | h
      · subst h
        exact hf p.2 (hm p (by simp))
      · exact hm q (by simp [h])
    · rcases List.mem_cons.mp hq with h | h
      · subst h
        exact hm q (by simp)
      · exact mapUpdate_forall P f rest k (fun r hr => hm r (by simp [hr])) hf q h

/-- A branch whose raw label is not the target string never touches the
target slot. -/
theorem process_branch_tw_eq (d : DeviceInfo) (b : RawBranch)
    (h : ¬ b.name_zh = TARGET_TW) : (process_branch d b).tw = d.tw := by
  unfold process_branch
  rw [if_neg h]
  by_cases h2 : b.name_zh = TARGET_GLOBAL
  · rw [if_pos h2]
    cases hb : buildInfo b <;> rfl
  · rw [if_neg h2]
    cases hb : buildInfo b <;> rfl

/-- Folding only non-target branches into a map of devices with empty target
slots leaves every target slot empty. -/
theorem foldl_branches_tw_none (k : String) :
    ∀ (bs : List RawBranch) (m : List (String × DeviceInfo)),
      (∀ b ∈ bs, ¬ b.name_zh = TARGET_TW) →
      (∀ q ∈ m, q.2.tw = none) →
      ∀ q ∈ bs.foldl (fun m b => mapUpdate (fun d => process_branch d b) m k) m,
        q.2.tw = none
  | [], _, _, hm, q, hq => hm q hq
  | b :: bs, m, hbs, hm, q, hq => by
    simp only [List.foldl_cons] at hq
    refine foldl_branches_tw_none k bs _ (fun b2 hb2 => hbs b2 (by simp [hb2])) ?_ q hq
    intro q2 hq2
    refine mapUpdate_forall (fun v => v.tw = none) _ m k hm ?_ q2 hq2
    intro v hv
    rw [process_branch_tw_eq v b (hbs b (by simp))]
    exact hv

/-- A corpus map all of whose devices lack the target timeline renders
nothing. -/
theorem final_list_nil_of_all_none (m : List (String × DeviceInfo))
    (h : ∀ q ∈ m, q.2.tw = none) : final_list_of m = [] := by
  unfold final_list_of
  have hf : m.filter (fun p => p.2.tw.isSome) = [] := by
    rw [List.filter_eq_nil_iff]
    intro a ha
    simp [h a ha]
  rw [hf]
  rfl

/-- Claim C1, counterexample: on a history with gaps of 10 and 100 days and a
current gap of 101 days, the flag the device-card loop computes is false while
the OR with the absolute threshold 100 claimed by the spec is true, so the
second heuristic is not the absolute threshold 100. -/
theorem claim1_counterexample :
    is_abandoned_card histUneven 101 = false
    ∧ is_abandoned_specOr100 histUneven 101 = true := by
  constructor
  · with_unfolding_all decide
  · with_unfolding_all decide

/-- Claim C1, amended: for every device card the caller combines the
MAD-based result, via logical OR, with the relative heuristic that the
current gap exceeds twice the largest historical gap (and that largest gap
is positive); either signal alone marks the device stale. -/
theorem claim1_amended_or_relative (hist : List RomEntry) (days : Int) :
    is_abandoned_card hist days = true ↔
      (is_abandoned_mad hist days = true ∨
        (get_max_interval hist > 0 ∧ days > 2 * get_max_interval hist)) := by
  simp [is_abandoned_card, Bool.or_eq_true, Bool.and_eq_true, decide_eq_true_eq]

/-- Claim C2, counterexample: the empty string and an unparseable string do
not parse to the single-element key with entry 0. -/
theorem claim2_counterexample :
    ¬ version_to_tuple "" = [0] ∧ ¬ version_to_tuple "garbage" = [0] := by
  exact ⟨by decide, by decide⟩

/-- Claim C2, amended: the tagged example parses to (1,0,1,0); the empty
string and an unparseable string parse to the empty key, since no exception
occurs on them and only the exception handler returns the key (0,). -/
theorem claim2_amended_parse_values :
    version_to_tuple "OS1.0.1.0.UNATWXM" = [1, 0, 1, 0]
    ∧ version_to_tuple "" = [] ∧ version_to_tuple "garbage" = [] := by
  exact ⟨by decide, by decide, by decide⟩

/-- Claim C3, counterexample: a record lacking a device code is not rejected:
it is aggregated under the empty-string code, and here even survives into the
final output. -/
theorem claim3_counterexample :
    recNoCode.device = none
    ∧ (mapLookup (collect [recNoCode]) "").isSome = true
    ∧ (final_list_of (collect [recNoCode])).length = 1 := by
  exact ⟨rfl, by decide, by decide⟩

/-- Claim C3, amended: every record lacking a device code is aggregated under
the empty-string code: after processing it the corpus map resolves that key. -/
theorem claim3_amended_no_reject (m : List (String × DeviceInfo)) (rec : RawRecord)
    (h : rec.device = none) :
    (mapLookup (process_record m rec) "").isSome = true := by
  simp only [process_record, h, Option.getD_none]
  apply foldl_mapUpdate_isSome
  cases hm : mapLookup m ""
  · simp only [hm, Option.isNone_none, if_pos]
    exact mapLookup_append_isSome m "" _
  · simp [hm]

/-- Claim C3, witness of the amended theorem at the sample record. -/
theorem claim3_witness : (mapLookup (process_record [] recNoCode) "").isSome = true :=
  claim3_amended_no_reject [] recNoCode rfl

/-- Claim C4: a device is in the final ordered output iff its target timeline
is present (membership in the sorted output list is exactly membership among
corpus entries with a populated target slot), and a record none of whose
branches carries the target name yields no output device at all. -/
theorem claim4_target_iff_rendered :
    (∀ (m : List (String × DeviceInfo)) (d : DeviceInfo),
        d ∈ final_list_of m → d.tw.isSome = true)
    ∧ (∀ (m : List (String × DeviceInfo)) (p : String × DeviceInfo),
        p ∈ m → p.2.tw.isSome = true →
        { p.2 with others := sortKeyDesc (fun o => o.latest.release) p.2.others }
          ∈ final_list_of m)
    ∧ (∀ rec : RawRecord,
        (∀ b ∈ rec.branches, ¬ b.name_zh = TARGET_TW) →
        final_list_of (process_record [] rec) = []) := by
  refine ⟨?_, ?_, ?_⟩
  · intro m d hd
    simp only [final_list_of] at hd
    rw [mem_sortKeyDesc] at hd
    rcases List.mem_map.mp hd with ⟨p, hp, hpd⟩
    rcases List.mem_filter.mp hp with ⟨_, hsome⟩
    subst hpd
    exact hsome
  · intro m p hp hsome
    simp only [final_list_of]
    rw [mem_sortKeyDesc]
    exact List.mem_map_of_mem _ (List.mem_filter.mpr ⟨hp, hsome⟩)
  · intro rec hb
    apply final_list_nil_of_all_none
    have hpr : process_record [] rec =
        rec.branches.foldl
          (fun m branch => mapUpdate (fun d => process_branch d branch) m (rec.device.getD ""))
          [(rec.device.getD "",
            init_device (rec.name_zh.getD "Unknown Device") (rec.device.getD ""))] := rfl
    rw [hpr]
    apply foldl_branches_tw_none _ _ _ hb
    intro q hq
    rcases List.mem_singleton.mp hq with rfl
    rfl

/-- Claim C4, witness: the sample record whose only branch is the global one
renders no device. -/
theorem claim4_witness : final_list_of (process_record [] recNoTw) = [] :=
  claim4_target_iff_rendered.2.2 recNoTw (by decide)

/-- Claim C5: whenever at least two dates parse and at least one non-negative
gap remains, the MAD classifier fires exactly when the modified z-score
(current gap minus the median gap, over 1.4826 times the MAD floored at 1)
exceeds 4, with the median gap taken over the non-negative gaps and the MAD
the median of their absolute deviations. -/
theorem claim5_mad_formula (hist : List RomEntry) (days : Int)
    (h2 : 2 ≤ (parse_history_dates hist).length)
    (hi : ¬ intervalsOf (parse_history_dates hist) = []) :
    is_abandoned_mad hist days = true ↔
      4 < ((days : ℚ) -
            median ((intervalsOf (parse_history_dates hist)).map fun i => (i : ℚ)))
          / (14826 / 10000 *
              max (median ((intervalsOf (parse_history_dates hist)).map fun x =>
                |(x : ℚ) - median ((intervalsOf (parse_history_dates hist)).map
                    fun i => (i : ℚ))|)) 1) := by
  have hll : (parse_history_dates hist).length ≤ hist.length := by
    simp only [parse_history_dates]
    exact List.length_filterMap_le _ _
  have hl : ¬ hist.length < 2 := by omega
  have hd : ¬ (parse_history_dates hist).length < 2 := by omega
  simp only [is_abandoned_mad]
  rw [if_neg hl, if_neg hd, if_neg hi]
  simp only [gt_iff_lt, decide_eq_true_eq]

/-- Claim C5, witness at the steady sample history and a 400-day gap. -/
theorem claim5_witness :
    is_abandoned_mad histSteady 400 = true ↔
      4 < ((400 : ℚ) -
            median ((intervalsOf (parse_history_dates histSteady)).map fun i => (i : ℚ)))
          / (14826 / 10000 *
              max (median ((intervalsOf (parse_history_dates histSteady)).map fun x =>
                |(x : ℚ) - median ((intervalsOf (parse_history_dates histSteady)).map
                    fun i => (i : ℚ))|)) 1) :=
  claim5_mad_formula histSteady 400 (by decide) (by decide)

/-- Claim C6: with fewer than two history entries the MAD classifier returns
false whatever the elapsed days; insufficient data is never an error. -/
theorem claim6_short_history_false (hist : List RomEntry) (days : Int)
    (h : hist.length < 2) : is_abandoned_mad hist days = false := by
  simp only [is_abandoned_mad]
  rw [if_pos h]

/-- Claim C6, witness at the empty history. -/
theorem claim6_witness : is_abandoned_mad [] 99999 = false :=
  claim6_short_history_false [] 99999 (by decide)

/-- Claim C7, counterexample: a label covered by no lexicon key does not pass
through unchanged: the prefix phrase and the generic suffix are still
stripped. -/
theorem claim7_counterexample :
    (REGION_MAPPING.all fun p => !containsSub p.1.data "小米澎湃 OS ABC版".data) = true
    ∧ get_region_label "小米澎湃 OS ABC版" = "ABC"
    ∧ ¬ get_region_label "小米澎湃 OS ABC版" = "小米澎湃 OS ABC版" := by
  exact ⟨by decide, by decide, by decide⟩

/-- Claim C7, amended: the Chinese-region label is an exact lexicon hit for
the sample; a label hitting no alias, no lexicon key and no EEA case, whose
core token contains no lexicon key, normalizes to its core token (prefix and
generic suffix words stripped, possibly empty); and the caller replaces an
empty result by the raw label, so a non-empty raw label never displays
blank. -/
theorem claim7_amended_core_token :
    get_region_label "小米澎湃 OS 中国大陆版" = "中國"
    ∧ (∀ l : String,
        ¬ stripped_name l = "正式版" → ¬ stripped_name l = "开发版" →
        ¬ stripped_name l = "Beta" →
        lookupList REGION_MAPPING (core_token l) = none →
        ¬ core_token l = "EEA" → ¬ core_token l = "欧洲EEA" →
        (∀ p ∈ REGION_MAPPING, containsSub p.1.data (core_token l).data = false) →
        get_region_label l = core_token l)
    ∧ (∀ l : String, ¬ l = "" → ¬ branchLabel l = "") := by
  refine ⟨by decide, ?_, ?_⟩
  · intro l h1 h2 h3 h4 h5 h6 h7
    simp only [get_region_label]
    rw [if_neg h1, if_neg h2, if_neg h3]
    simp only [h4]
    rw [if_neg h5, if_neg h6]
    exact foldl_pyReplace_id REGION_MAPPING (core_token l) h7
  · intro l hl
    simp only [branchLabel]
    by_cases hb : get_region_label l = ""
    · rw [if_pos hb]
      exact hl
    · rw [if_neg hb]
      exact hb

/-- Claim C7, witness of the amended theorem at an untranslated label. -/
theorem claim7_witness : get_region_label "XYZ" = core_token "XYZ" :=
  claim7_amended_core_token.2.1 "XYZ" (by decide) (by decide) (by decide) (by decide)
    (by decide) (by decide) (by decide)

/-- Claim C8, counterexample: a target-named branch whose build mapping is
empty still modifies the device: its brand is overwritten to the default
before the empty check. -/
theorem claim8_counterexample :
    branchTwEmpty.roms = []
    ∧ ¬ process_branch devFresh branchTwEmpty = devFresh
    ∧ (process_branch devFresh branchTwEmpty).brand = "Xiaomi"
    ∧ devFresh.brand = "Other" := by
  exact ⟨rfl, by decide, by decide, rfl⟩

/-- Claim C8, amended: a branch with an empty build mapping contributes no
timeline and leaves name, code and every timeline slot unchanged; and when
its label is not the target string it changes nothing at all.  Only the brand
of a target-named branch escapes the skip. -/
theorem claim8_amended_empty_branch (d : DeviceInfo) (b : RawBranch)
    (h : b.roms = []) :
    ((process_branch d b).tw = d.tw ∧ (process_branch d b).glb = d.glb
      ∧ (process_branch d b).others = d.others
      ∧ (process_branch d b).name = d.name ∧ (process_branch d b).code = d.code)
    ∧ (¬ b.name_zh = TARGET_TW → process_branch d b = d) := by
  have hb : buildInfo b = none := by
    simp [buildInfo, h]
  constructor
  · unfold process_branch
    by_cases h1 : b.name_zh = TARGET_TW
    · rw [if_pos h1]
      simp only [hb]
      split <;> exact ⟨rfl, rfl, rfl, rfl, rfl⟩
    · rw [if_neg h1]
      by_cases h2 : b.name_zh = TARGET_GLOBAL
      · rw [if_pos h2]
        simp [hb]
      · rw [if_neg h2]
        simp [hb]
  · intro h1
    unfold process_branch
    rw [if_neg h1]
    by_cases h2 : b.name_zh = TARGET_GLOBAL
    · rw [if_pos h2]
      simp only [hb]
    · rw [if_neg h2]
      simp only [hb]

/-- Claim C8, witness: a non-target branch with an empty build mapping leaves
the device untouched. -/
theorem claim8_witness : process_branch devFresh branchOtherEmpty = devFresh :=
  (claim8_amended_empty_branch devFresh branchOtherEmpty rfl).2 (by decide)

/-- Claim C9: the order on parsed version keys is a strict total order:
for all parsed keys exactly one of less-than, equality and greater-than
holds, and less-than is transitive. -/
theorem claim9_version_total_order (s t u : String) :
    (tupleLt (version_to_tuple s) (version_to_tuple t) = true ∨
        version_to_tuple s = version_to_tuple t ∨
        tupleLt (version_to_tuple t) (version_to_tuple s) = true)
    ∧ (tupleLt (version_to_tuple s) (version_to_tuple t) = true →
        ¬ version_to_tuple s = version_to_tuple t ∧
        tupleLt (version_to_tuple t) (version_to_tuple s) = false)
    ∧ (version_to_tuple s = version_to_tuple t →
        tupleLt (version_to_tuple s) (version_to_tuple t) = false)
    ∧ (tupleLt (version_to_tuple s) (version_to_tuple t) = true →
        tupleLt (version_to_tuple t) (version_to_tuple u) = true →
        tupleLt (version_to_tuple s) (version_to_tuple u) = true) := by
  refine ⟨?_, ?_, ?_, tupleLt_trans _ _ _⟩
  · cases hab : tupleLt (version_to_tuple s) (version_to_tuple t)
    · cases hba : tupleLt (version_to_tuple t) (version_to_tuple s)
      · exact Or.inr (Or.inl (tupleLt_connex _ _ hab hba))
      · exact Or.inr (Or.inr rfl)
    · exact Or.inl rfl
  · intro h
    refine ⟨?_, tupleLt_asymm h⟩
    intro he
    rw [he, tupleLt_irrefl] at h
    simp at h
  · intro he
    rw [he, tupleLt_irrefl]

/-- Claim C9, witness: transitivity applied at three concrete version
strings. -/
theorem claim9_witness :
    tupleLt (version_to_tuple "1") (version_to_tuple "3") = true :=
  (claim9_version_total_order "1" "2" "3").2.2.2 (by decide) (by decide)

/-- Claim C10: a branch whose raw label equals the target string and which
has no brand field overwrites the device brand with the literal default
Xiaomi, for every device state and in particular however empty the build
mapping is. -/
theorem claim10_brand_default_overwrite (d : DeviceInfo) (b : RawBranch)
    (h1 : b.name_zh = TARGET_TW) (h2 : b.brand = none) :
    (process_branch d b).brand = "Xiaomi" := by
  unfold process_branch
  rw [if_pos h1]
  simp only [h2, Option.getD_none]
  rw [if_pos (by decide : ¬ ("Xiaomi" : String) = "")]
  cases hb : buildInfo b <;> rfl

/-- Claim C10, witness: the fresh device and the empty target-named branch. -/
theorem claim10_witness : (process_branch devFresh branchTwEmpty).brand = "Xiaomi" :=
  claim10_brand_default_overwrite devFresh branchTwEmpty rfl rfl

end HyperData
